import Mathlib

/-
Verification of the zust fine-grained reactivity core (src/lib/reactivity.ts).

The TypeScript core is shallowly embedded as an explicit state machine:

  * `St` holds the mutable runtime state created by `initialize()`:
    the signal heap (`sigs`, each signal a value plus an insertion-ordered
    subscriber set), the subscriber heap (`subsM`, each subscriber its
    dependency list and its body), the global execution-context stack
    (`context`, head is the top), the batching flag and pending set
    (`isBatching`, `batched`), and the single store's backing raw object
    (`raw`) together with its path-to-signal map (`pathSigs`).
  * Effect bodies are a small expression language `Exp`; the interpreter
    `step` is indexed by fuel (the reactive graph can loop in general) and
    evaluates bodies exactly as the source does: signal reads register the
    running subscriber, signal writes notify a snapshot of the subscriber
    set (immediately, or into the batch queue), effects clean up their old
    subscriptions, push themselves on the context stack, run their body and
    always pop (the source's try/finally).
  * JS values are `Val`.  Objects carry an allocation identity `id`, so
    reference equality (`===` on objects) and "freshly shallow-copied
    container" are expressible; in-place mutation of the backing raw object
    keeps ids, shallow copies allocate new ones.  Array stores are not
    exercised by any claim and arrays are not modelled.
  * Store paths are key lists; the source keys its signal map by the
    dot-joined path string, which is in bijection with the key list for the
    keys appearing here.  The synthetic `ownKeys` path `'root'` is `["root"]`.
  * JS exceptions are `Except`; the state is threaded through errors, so
    try/finally behaviour (context pop, batching-flag reset) is faithful.
  * The batch drain `for (const effect of batchedEffects) effect()` iterates
    the live Set: per the ECMAScript specification, values added to a Set
    during iteration are visited by the ongoing iteration, and re-adding an
    existing element does not move it.  The drain is therefore modelled as
    an index loop over the growing `batched` list.

Observable behaviour (effect run counts, observed values) is recorded in a
log: `tickE n` models a `count++` instrumentation counter inside a body and
`emitE e` models storing the value a body observed.
-/

set_option maxRecDepth 20000
set_option maxHeartbeats 2000000

namespace Zust

/-- JS values.  `obj id fields` is an object with allocation identity `id`
and insertion-ordered fields. -/
inductive Val where
  | undef
  | num (n : Int)
  | str (s : String)
  | bool (b : Bool)
  | obj (id : Nat) (fields : List (String × Val))
  deriving Repr

/-- Log entries: `tk n` is an instrumentation counter hit inside a body,
`obs v` a value a body observed. -/
inductive Entry where
  | tk (tag : Nat)
  | obs (v : Val)
  deriving Repr

/-- Runtime errors: a thrown JS exception, or interpreter fuel exhaustion
(never reached in the concrete runs below). -/
inductive Err where
  | thrown (msg : String)
  | fuelOut
  deriving Repr, DecidableEq

/-- Effect bodies and top-level statements, deeply embedded.
`readS`/`writeS` call a signal's getter/setter; `readP`/`writeP`/`keysP`
access the store view through the proxy traps; `setStoreE` is the
path-based `setStore`; `batchE` is `batch`. -/
inductive Exp where
  | litE (v : Val)
  | readS (s : Nat)
  | writeS (s : Nat) (e : Exp)
  | readP (parts : List String)
  | writeP (parts : List String) (e : Exp)
  | keysP (parts : List String)
  | seqE (a b : Exp)
  | condE (c t e : Exp)
  | addE (a b : Exp)
  | emitE (e : Exp)
  | tickE (tag : Nat)
  | throwE (msg : String)
  | batchE (e : Exp)
  | setStoreE (parts : List String) (e : Exp)
  | setStoreInnerE (parts : List String) (v : Val)
  deriving Repr

/-- A signal: current value and insertion-ordered subscriber set
(`createSignal`'s `data` and `subscriptions`). -/
structure SigSt where
  data : Val
  subs : List Nat
  deriving Repr

/-- A subscriber (computation): the signal subscriber-sets it is registered
in (`dependencies`, as signal ids) and its body. -/
structure SubSt where
  deps : List Nat
  body : Exp
  deriving Repr

/-- The whole runtime state of one `initialize()` instance. -/
structure St where
  sigs : List (Nat × SigSt)
  nextSig : Nat
  subsM : List (Nat × SubSt)
  nextSub : Nat
  context : List Nat
  isBatching : Bool
  batched : List Nat
  raw : Val
  pathSigs : List (List String × Nat)
  nextObj : Nat
  log : List Entry
  deriving Repr

def St.init : St :=
  { sigs := [], nextSig := 0, subsM := [], nextSub := 0, context := [],
    isBatching := false, batched := [], raw := .undef, pathSigs := [],
    nextObj := 0, log := [] }

/-- JS truthiness of the modelled values. -/
def truthy : Val → Bool
  | .undef => false
  | .num n => n != 0
  | .str s => s != ""
  | .bool b => b
  | .obj _ _ => true

/-- JS strict equality `===`: primitives by value, objects by reference
identity. -/
def jsEq : Val → Val → Bool
  | .undef, .undef => true
  | .num a, .num b => a == b
  | .str a, .str b => a == b
  | .bool a, .bool b => a == b
  | .obj i _, .obj j _ => i == j
  | _, _ => false

/-- First-match lookup in an object's field list. -/
def lookupF : List (String × Val) → String → Val
  | [], _ => .undef
  | (k', v) :: r, k => if k' = k then v else lookupF r k

/-- JS property write on a field list: an existing key keeps its position,
a new key is appended (JS insertion order). -/
def setFields : List (String × Val) → String → Val → List (String × Val)
  | [], k, v => [(k, v)]
  | (k', v') :: r, k, v => if k' = k then (k, v) :: r else (k', v') :: setFields r k v

/-- `obj[k]` (undefined on non-objects; no claim reads properties of
primitives through the raw object). -/
def getField (t : Val) (k : String) : Val :=
  match t with
  | .obj _ fs => lookupF fs k
  | _ => Val.undef

/-- In-place `obj[k] = v`: the object keeps its identity. -/
def setField (t : Val) (k : String) (v : Val) : Val :=
  match t with
  | .obj i fs => .obj i (setFields fs k v)
  | _ => t

/-- One step of `getNestedValue`'s reduce: descend when the current value is
an object, otherwise undefined. -/
def nestedStep (cur : Val) (k : String) : Val :=
  match cur with
  | .obj _ _ => getField cur k
  | _ => Val.undef

/-- `getNestedValue(obj, path)`. -/
def getNestedValue (t : Val) (ps : List String) : Val :=
  ps.foldl nestedStep t

/-- `setNestedValue(obj, path, value)`: navigates the path, creating fresh
empty objects (`current[key] = \x7b\x7d`) for missing or non-object
intermediates, then assigns the leaf in place.  Threads the object-identity
allocator for the created containers. -/
def setNestedValue : Val → List String → Val → Nat → Val × Nat
  | t, [], _, ctr => (t, ctr)
  | t, [k], x, ctr => (setField t k x, ctr)
  | t, k :: ks, x, ctr =>
      match getField t k with
      | .obj i fs =>
          let (c, ctr') := setNestedValue (.obj i fs) ks x ctr
          (setField t k c, ctr')
      | _ =>
          let (c, ctr') := setNestedValue (.obj ctr []) ks x (ctr + 1)
          (setField t k c, ctr')

/-- In-place update of the raw backing tree at `base ++ [k]`, used by the
proxy set trap's `obj[prop] = value`: every container on the path keeps its
identity. -/
def rawSetIn : Val → List String → String → Val → Val
  | t, [], k, v => setField t k v
  | t, b :: bs, k, v => setField t b (rawSetIn (getField t b) bs k v)

/-- The shallow copy `Array.isArray(v) ? [...v] : { ...v }` taken by the set
trap's ancestor pass: same fields, fresh object identity. -/
def shallowCopy (v : Val) (st : St) : Val × St :=
  match v with
  | .obj _ fs => (.obj st.nextObj fs, { st with nextObj := st.nextObj + 1 })
  | _ => (.obj st.nextObj [], { st with nextObj := st.nextObj + 1 })

/-- JS `Set.add`: append if absent, keep position if present. -/
def dedupAdd (l : List Nat) (x : Nat) : List Nat :=
  if l.contains x then l else l ++ [x]

/-- First-match association-list lookup. -/
def alLookup {α β : Type} [DecidableEq α] : List (α × β) → α → Option β
  | [], _ => none
  | (k', v) :: r, k => if k' = k then some v else alLookup r k

/-- Update the first matching entry of an association list. -/
def alUpdate {β : Type} : List (Nat × β) → Nat → (β → β) → List (Nat × β)
  | [], _, _ => []
  | (k', v) :: r, k, f => if k' = k then (k', f v) :: r else (k', v) :: alUpdate r k f

def getSig (st : St) (s : Nat) : SigSt :=
  (alLookup st.sigs s).getD { data := .undef, subs := [] }

def getSub (st : St) (id : Nat) : SubSt :=
  (alLookup st.subsM id).getD { deps := [], body := .litE .undef }

/-- `subscribe(running, subscriptions)`: add the running subscriber to the
signal's set, and record the set in the subscriber's dependencies. -/
def subscribeFn (running : Nat) (s : Nat) (st : St) : St :=
  { st with
    sigs := alUpdate st.sigs s (fun g => { g with subs := dedupAdd g.subs running }),
    subsM := alUpdate st.subsM running (fun b => { b with deps := dedupAdd b.deps s }) }

/-- A signal's getter: register the subscriber at the top of the context
stack (if any), return the stored value. -/
def sigGetF (s : Nat) (st : St) : Val × St :=
  let st' :=
    match st.context with
    | running :: _ => subscribeFn running s st
    | [] => st
  ((getSig st' s).data, st')

/-- `dep.delete(running)`: drop a subscriber from one subscriber set. -/
def dropSub (id : Nat) (g : SigSt) : SigSt :=
  { g with subs := g.subs.filter (fun x => !(x == id)) }

/-- `cleanup(running)`: remove the subscriber from every subscriber-set in
its dependency list, then clear the list. -/
def cleanupFn (id : Nat) (st : St) : St :=
  let deps := (getSub st id).deps
  let sigs' := deps.foldl (fun acc d => alUpdate acc d (dropSub id)) st.sigs
  { st with sigs := sigs',
            subsM := alUpdate st.subsM id (fun b => { b with deps := [] }) }

/-- The bidirectional bookkeeping invariant: every subscriber found in a
signal's subscriber set also records that signal in its dependency list
(so `cleanup`'s sweep over the dependency list reaches every set the
subscriber is registered in). -/
def invB (st : St) : Bool :=
  st.sigs.all (fun p => p.2.subs.all (fun sub => ((getSub st sub).deps).contains p.1))

/-- `createSignal(value)`: allocate a fresh signal, return its id. -/
def createSignalF (v : Val) (st : St) : Nat × St :=
  (st.nextSig,
   { st with sigs := st.sigs ++ [(st.nextSig, { data := v, subs := [] })],
             nextSig := st.nextSig + 1 })

/-- The store's `getSignalForPath`: lazily materialize a signal for the path
seeded with the current raw value. -/
def getSignalForPath (ps : List String) (st : St) : Nat × St :=
  match alLookup st.pathSigs ps with
  | some sid => (sid, st)
  | none =>
      let v := getNestedValue st.raw ps
      let (sid, st1) := createSignalF v st
      (sid, { st1 with pathSigs := st1.pathSigs ++ [(ps, sid)] })

def appendLog (st : St) (e : Entry) : St :=
  { st with log := st.log ++ [e] }

def joinKeys (fs : List (String × Val)) : String :=
  String.intercalate "," (fs.map Prod.fst)

/-- Occurrences of `tk tag` in a log (an effect's run counter). -/
def countTk (tag : Nat) : List Entry → Nat
  | [] => 0
  | .tk t :: r => (if t = tag then 1 else 0) + countTk tag r
  | _ :: r => countTk tag r

/-- The interpreter's pending calls: body evaluation, subscriber execution,
the notify loop of a signal write, a signal setter, the batch drain, the
proxy read/write traversals, the set trap, its ancestor pass, and the two
halves of the path-based `setStore`. -/
inductive Task where
  | evalT (e : Exp)
  | executeT (id : Nat)
  | notifyT (l : List Nat)
  | sigSetT (s : Nat) (v : Val)
  | drainT (i : Nat)
  | readAuxT (base : List String) (cur : Val) (rest : List String)
  | writeAuxT (base : List String) (cur : Val) (rest : List String) (e : Exp)
  | setTrapT (obj : Val) (base : List String) (k : String) (v : Val)
  | ancT (path : List String) (i : Nat)
  | storeLoopT (ps : List String) (i : Nat)
  | storeInnerT (ps : List String) (v : Val)
  deriving Repr

/-- The interpreter.  Fuel bounds the call depth; every rule of the source
is commented with the line it mirrors. -/
def step : Nat → Task → St → (Except Err Val) × St
  | 0, _, st => (.error .fuelOut, st)
  | f + 1, t, st =>
    match t with
    | .evalT e =>
      match e with
      | .litE v => (.ok v, st)
      | .readS s =>
          let (v, st1) := sigGetF s st
          (.ok v, st1)
      | .writeS s e1 =>
          match step f (.evalT e1) st with
          | (.ok v, st1) => step f (.sigSetT s v) st1
          | r => r
      | .readP ps => step f (.readAuxT [] st.raw ps) st
      | .writeP ps e1 => step f (.writeAuxT [] st.raw ps e1) st
      | .keysP ps =>
          -- evaluate the view, then the ownKeys trap: track basePath || 'root'
          match step f (.readAuxT [] st.raw ps) st with
          | (.ok cur, st1) =>
              match cur with
              | .obj oid fs =>
                  let path := if ps.isEmpty then ["root"] else ps
                  let (sid, st2) := getSignalForPath path st1
                  let (_, st3) := sigGetF sid st2
                  let _ := oid
                  (.ok (.str (joinKeys fs)), st3)
              | _ => (.error (.thrown "TypeError"), st1)
          | r => r
      | .seqE a b =>
          match step f (.evalT a) st with
          | (.ok _, st1) => step f (.evalT b) st1
          | r => r
      | .condE c e1 e2 =>
          match step f (.evalT c) st with
          | (.ok v, st1) =>
              if truthy v then step f (.evalT e1) st1 else step f (.evalT e2) st1
          | r => r
      | .addE a b =>
          match step f (.evalT a) st with
          | (.ok va, st1) =>
              match step f (.evalT b) st1 with
              | (.ok vb, st2) =>
                  match va, vb with
                  | .num na, .num nb => (.ok (.num (na + nb)), st2)
                  | _, _ => (.ok .undef, st2)
              | r => r
          | r => r
      | .emitE e1 =>
          match step f (.evalT e1) st with
          | (.ok v, st1) => (.ok v, appendLog st1 (.obs v))
          | r => r
      | .tickE tag => (.ok .undef, appendLog st (.tk tag))
      | .throwE m => (.error (.thrown m), st)
      | .batchE e1 =>
          -- batch(fn): reentrant check, then run fn, drain, clear, and
          -- always reset the flag (try/finally)
          if st.isBatching then step f (.evalT e1) st
          else
            match step f (.evalT e1) { st with isBatching := true } with
            | (.ok v, st1) =>
                match step f (.drainT 0) st1 with
                | (.ok _, st2) => (.ok v, { st2 with batched := [], isBatching := false })
                | (.error err, st2) => (.error err, { st2 with isBatching := false })
            | (.error err, st1) => (.error err, { st1 with isBatching := false })
      | .setStoreE ps e1 =>
          -- setStore(path, value): the whole update runs inside batch()
          match step f (.evalT e1) st with
          | (.ok v, st1) => step f (.evalT (.batchE (.setStoreInnerE ps v))) st1
          | r => r
      | .setStoreInnerE ps v => step f (.storeInnerT ps v) st
    | .executeT id =>
        -- execute: cleanup, push on the context stack, run the body,
        -- finally pop
        let st1 := cleanupFn id st
        let st2 := { st1 with context := id :: st1.context }
        match step f (.evalT (getSub st2 id).body) st2 with
        | (r, st3) => (r, { st3 with context := st3.context.tail })
    | .notifyT l =>
        -- the setter's loop over a snapshot of the subscriber set
        match l with
        | [] => (.ok .undef, st)
        | sid :: rest =>
            if st.isBatching then
              step f (.notifyT rest) { st with batched := dedupAdd st.batched sid }
            else
              match step f (.executeT sid) st with
              | (.ok _, st1) => step f (.notifyT rest) st1
              | r => r
    | .sigSetT s v =>
        -- set(value): store the value, then notify the snapshot
        let st1 := { st with sigs := alUpdate st.sigs s (fun g => { g with data := v }) }
        step f (.notifyT (getSig st1 s).subs) st1
    | .drainT i =>
        -- for (const effect of batchedEffects) effect(): the ECMAScript Set
        -- iterator visits entries appended during the iteration, hence an
        -- index loop over the live list
        if i < st.batched.length then
          match step f (.executeT (st.batched.getD i 0)) st with
          | (.ok _, st1) => step f (.drainT (i + 1)) st1
          | r => r
        else (.ok .undef, st)
    | .readAuxT base cur rest =>
        -- chained property reads through the proxy get trap: each step
        -- tracks its own prefix path and wraps object results
        match rest with
        | [] => (.ok cur, st)
        | k :: ks =>
            match cur with
            | .obj oid fs =>
                let path := base ++ [k]
                let value := lookupF fs k
                let (sid, st1) := getSignalForPath path st
                let (_, st2) := sigGetF sid st1
                let _ := oid
                step f (.readAuxT path value ks) st2
            | .undef => (.error (.thrown "TypeError"), st)
            | _ => step f (.readAuxT (base ++ [k]) .undef ks) st
    | .writeAuxT base cur rest e1 =>
        -- member-expression traversal of `view.p1....pn = e`: get traps on
        -- the proper prefixes, then the right-hand side, then the set trap
        match rest with
        | [] => (.ok .undef, st)
        | [k] =>
            match step f (.evalT e1) st with
            | (.ok v, st1) =>
                match cur with
                | .obj _ _ => step f (.setTrapT cur base k v) st1
                | _ => (.error (.thrown "TypeError"), st1)
            | r => r
        | k :: ks =>
            match cur with
            | .obj oid fs =>
                let path := base ++ [k]
                let value := lookupF fs k
                let (sid, st1) := getSignalForPath path st
                let (_, st2) := sigGetF sid st1
                let _ := oid
                step f (.writeAuxT path value ks e1) st2
            | _ => (.error (.thrown "TypeError"), st)
    | .setTrapT obj base k v =>
        -- the proxy set trap: equality guard, in-place raw update, notify
        -- the written path, then the ancestor pass
        let path := base ++ [k]
        let oldValue := getField obj k
        if jsEq oldValue v then (.ok (.bool true), st)
        else
          let st1 := { st with raw := rawSetIn st.raw base k v }
          let (sid, st2) := getSignalForPath path st1
          match step f (.sigSetT sid v) st2 with
          | (.ok _, st3) =>
              match step f (.ancT path (path.length - 1)) st3 with
              | (.ok _, st4) => (.ok (.bool true), st4)
              | r => r
          | r => r
    | .ancT path i =>
        -- the set trap's parent loop, i from path.length-1 down to 1:
        -- only already-materialized prefixes, re-notified with a fresh
        -- shallow copy of the current raw container
        if i = 0 then (.ok .undef, st)
        else
          let pp := path.take i
          match alLookup st.pathSigs pp with
          | some sid =>
              let pv := getNestedValue st.raw pp
              if truthy pv then
                let (nv, st1) := shallowCopy pv st
                match step f (.sigSetT sid nv) st1 with
                | (.ok _, st2) => step f (.ancT path (i - 1)) st2
                | r => r
              else step f (.ancT path (i - 1)) st
          | none => step f (.ancT path (i - 1)) st
    | .storeLoopT ps i =>
        -- setStore's prefix loop, i the prefix length from 1 up to the full
        -- path: only materialized prefixes, re-notified with the freshly
        -- re-read raw value and no equality check
        if ps.length < i then (.ok .undef, st)
        else
          match alLookup st.pathSigs (ps.take i) with
          | some sid =>
              match step f (.sigSetT sid (getNestedValue st.raw (ps.take i))) st with
              | (.ok _, st1) => step f (.storeLoopT ps (i + 1)) st1
              | r => r
          | none => step f (.storeLoopT ps (i + 1)) st
    | .storeInnerT ps v =>
        -- the body of setStore's batch: write the raw tree, set the full
        -- path's signal, then the prefix loop
        let (raw', ctr) := setNestedValue st.raw ps v st.nextObj
        let st1 := { st with raw := raw', nextObj := ctr }
        let (sid, st2) := getSignalForPath ps st1
        match step f (.sigSetT sid v) st2 with
        | (.ok _, st3) => step f (.storeLoopT ps 1) st3
        | r => r

/-- Evaluate a top-level statement. -/
def runExp (fuel : Nat) (e : Exp) (st : St) : (Except Err Val) × St :=
  step fuel (.evalT e) st

/-- `createEffect(body)`: allocate the subscriber and run it once. -/
def createEffectF (fuel : Nat) (body : Exp) (st : St) : (Except Err Val) × Nat × St :=
  let id := st.nextSub
  let st1 := { st with subsM := st.subsM ++ [(id, { deps := [], body := body })],
                       nextSub := id + 1 }
  let r := step fuel (.executeT id) st1
  (r.1, id, r.2)

/-- `createMemo(fn)`: seed a signal with `fn()`'s first result, then an
effect whose body writes `fn()` into it; returns the signal's id. -/
def createMemoF (fuel : Nat) (fn : Exp) (st : St) : (Except Err Val) × Nat × St :=
  match step fuel (.evalT fn) st with
  | (.ok v, st1) =>
      let (s, st2) := createSignalF v st1
      match createEffectF fuel (.writeS s fn) st2 with
      | (r, _, st3) => (r, s, st3)
  | (.error e, st1) => (.error e, 0, st1)

/-- `createStore(initialValue)`: install the backing raw object (`ctr` is
the next free object identity above the ids used in `raw`). -/
def createStoreF (raw : Val) (ctr : Nat) (st : St) : St :=
  { st with raw := raw, pathSigs := [], nextObj := ctr }

/-! ### Executable structural equality

`Val` is a nested inductive, so `DecidableEq` cannot be derived; these
fuel-indexed Boolean comparators are kernel-computable and sound for
structural equality, letting concrete runs be checked by `decide`. -/

/-- Fuelled structural equality on values (`inl`) and field lists (`inr`). -/
def veqAux : Nat → ((Val × Val) ⊕ (List (String × Val) × List (String × Val))) → Bool
  | 0, _ => false
  | f + 1, .inl (a, b) =>
    match a, b with
    | .undef, .undef => true
    | .num x, .num y => x == y
    | .str x, .str y => x == y
    | .bool x, .bool y => x == y
    | .obj i fs, .obj j gs => i == j && veqAux f (.inr (fs, gs))
    | _, _ => false
  | f + 1, .inr (l, l') =>
    match l, l' with
    | [], [] => true
    | (k, v) :: r, (k', v') :: r' =>
        k == k' && veqAux f (.inl (v, v')) && veqAux f (.inr (r, r'))
    | _, _ => false

def valEqB (f : Nat) (a b : Val) : Bool := veqAux f (.inl (a, b))

/-- Generic Boolean list equality from an element comparator. -/
def listEqB {α : Type} (eqb : α → α → Bool) : List α → List α → Bool
  | [], [] => true
  | a :: r, b :: r' => eqb a b && listEqB eqb r r'
  | _, _ => false

def entryEqB (f : Nat) : Entry → Entry → Bool
  | .tk a, .tk b => a == b
  | .obs v, .obs w => valEqB f v w
  | _, _ => false

def entriesEqB (f : Nat) : List Entry → List Entry → Bool := listEqB (entryEqB f)

def expEqB (f : Nat) : Exp → Exp → Bool
  | .litE v, .litE w => valEqB f v w
  | .readS s, .readS s' => s == s'
  | .writeS s e, .writeS s' e' => s == s' && expEqB f e e'
  | .readP p, .readP p' => p == p'
  | .writeP p e, .writeP p' e' => p == p' && expEqB f e e'
  | .keysP p, .keysP p' => p == p'
  | .seqE a b, .seqE a' b' => expEqB f a a' && expEqB f b b'
  | .condE c t e, .condE c' t' e' => expEqB f c c' && expEqB f t t' && expEqB f e e'
  | .addE a b, .addE a' b' => expEqB f a a' && expEqB f b b'
  | .emitE e, .emitE e' => expEqB f e e'
  | .tickE t, .tickE t' => t == t'
  | .throwE m, .throwE m' => m == m'
  | .batchE e, .batchE e' => expEqB f e e'
  | .setStoreE p e, .setStoreE p' e' => p == p' && expEqB f e e'
  | .setStoreInnerE p v, .setStoreInnerE p' v' => p == p' && valEqB f v v'
  | _, _ => false

def resEqB (f : Nat) : Except Err Val → Except Err Val → Bool
  | .ok v, .ok w => valEqB f v w
  | .error e, .error e' => decide (e = e')
  | _, _ => false

def sigStEqB (f : Nat) (g g' : SigSt) : Bool :=
  valEqB f g.data g'.data && decide (g.subs = g'.subs)

def subStEqB (f : Nat) (b b' : SubSt) : Bool :=
  decide (b.deps = b'.deps) && expEqB f b.body b'.body

/-- Full structural equality of two interpreter states. -/
def stEqB (f : Nat) (s s' : St) : Bool :=
  listEqB (fun p q => p.1 == q.1 && sigStEqB f p.2 q.2) s.sigs s'.sigs
  && s.nextSig == s'.nextSig
  && listEqB (fun p q => p.1 == q.1 && subStEqB f p.2 q.2) s.subsM s'.subsM
  && s.nextSub == s'.nextSub
  && decide (s.context = s'.context)
  && (s.isBatching == s'.isBatching)
  && decide (s.batched = s'.batched)
  && valEqB f s.raw s'.raw
  && decide (s.pathSigs = s'.pathSigs)
  && s.nextObj == s'.nextObj
  && entriesEqB f s.log s'.log

/-! ### Claim scenarios -/

/-- C1: signals `a` (id 0) and `b` (id 1); an effect (id 0) whose body
reads both and records what it observed. -/
def c1Setup (a0 b0 : Int) : St :=
  let st := St.init
  let (_, st) := createSignalF (.num a0) st
  let (_, st) := createSignalF (.num b0) st
  (createEffectF 80 (.seqE (.tickE 0) (.seqE (.emitE (.readS 0)) (.emitE (.readS 1)))) st).2.2

/-- C1: write `a := v1` then `b := v2` inside one `batch` call. -/
def c1BatchSt (a0 b0 v1 v2 : Int) : St :=
  (runExp 80 (.batchE (.seqE (.writeS 0 (.litE (.num v1))) (.writeS 1 (.litE (.num v2)))))
    (c1Setup a0 b0)).2

/-- C1: the same two writes outside any batch. -/
def c1PlainSt (a0 b0 v1 v2 : Int) : St :=
  (runExp 80 (.seqE (.writeS 0 (.litE (.num v1))) (.writeS 1 (.litE (.num v2))))
    (c1Setup a0 b0)).2

/-- C2: signals `cond` (id 0, initially true), `a` (id 1), `b` (id 2); an
effect (id 0) reading `cond() ? a() : b()`. -/
def c2Setup (a0 b0 : Int) : St :=
  let st := St.init
  let (_, st) := createSignalF (.bool true) st
  let (_, st) := createSignalF (.num a0) st
  let (_, st) := createSignalF (.num b0) st
  (createEffectF 80
    (.seqE (.tickE 0) (.emitE (.condE (.readS 0) (.readS 1) (.readS 2)))) st).2.2

/-- C2: switch `cond` to false (the effect re-runs and reads `b`). -/
def c2Switch (a0 b0 : Int) : St :=
  (runExp 80 (.writeS 0 (.litE (.bool false))) (c2Setup a0 b0)).2

/-- C2: afterwards write `a := va`. -/
def c2WriteA (a0 b0 va : Int) : St :=
  (runExp 80 (.writeS 1 (.litE (.num va))) (c2Switch a0 b0)).2

/-- C2: afterwards write `b := vb`. -/
def c2WriteB (a0 b0 vb : Int) : St :=
  (runExp 80 (.writeS 2 (.litE (.num vb))) (c2Switch a0 b0)).2

/-- C3: `createStore(\x7b user: \x7b name: 'John' \x7d, meta: \x7b k: 5 \x7d \x7d)`
(object ids 0,1,2); effect 0 reads `store.user.name`, effect 1 reads
`store.user`.  The `meta` branch is never read: its signals must stay
unmaterialized across the write. -/
def c3Raw : Val :=
  .obj 0 [("user", .obj 1 [("name", .str "John")]), ("meta", .obj 2 [("k", .num 5)])]

def c3Setup : St :=
  let st := createStoreF c3Raw 3 St.init
  let (_, _, st) := createEffectF 80 (.seqE (.tickE 1) (.emitE (.readP ["user", "name"]))) st
  (createEffectF 80 (.seqE (.tickE 2) (.emitE (.readP ["user"]))) st).2.2

/-- C3: the deep write `store.user.name = 'Jane'` through the view. -/
def c3After : St :=
  (runExp 80 (.writeP ["user", "name"] (.litE (.str "Jane"))) c3Setup).2

/-- C4: `createStore(\x7b a: \x7b b: 1 \x7d \x7d)`; `store.a` is read once
(materializing the `'a'` signal), then effect 1 reads `store.a.b` and
effect 2 reads `store.a`. -/
def c4Raw : Val := .obj 0 [("a", .obj 1 [("b", .num 1)])]

def c4Setup : St :=
  let st := createStoreF c4Raw 2 St.init
  let st := (runExp 80 (.readP ["a"]) st).2
  let (_, _, st) := createEffectF 80 (.seqE (.tickE 1) (.emitE (.readP ["a", "b"]))) st
  (createEffectF 80 (.seqE (.tickE 2) (.emitE (.readP ["a"]))) st).2.2

/-- C4: `setStore('a.b', 2)`. -/
def c4SetStore : St := (runExp 80 (.setStoreE ["a", "b"] (.litE (.num 2))) c4Setup).2

/-- C4: `setStore('a.b', 1)` with `a.b` already 1 (value unchanged). -/
def c4SetStoreSame : St := (runExp 80 (.setStoreE ["a", "b"] (.litE (.num 1))) c4Setup).2

/-- C4: per-property assignment `store.a.b = 1` with `a.b` already 1. -/
def c4ViewSame : (Except Err Val) × St :=
  runExp 80 (.writeP ["a", "b"] (.litE (.num 1))) c4Setup

/-- C5: signals `a` (id 0) and `b` (id 1); effect 0 reads `a` and writes its
value into `b`; effect 1 reads `b`. -/
def c5Setup (a0 b0 : Int) : St :=
  let st := St.init
  let (_, st) := createSignalF (.num a0) st
  let (_, st) := createSignalF (.num b0) st
  let (_, _, st) := createEffectF 80 (.seqE (.tickE 0) (.writeS 1 (.readS 0))) st
  (createEffectF 80 (.seqE (.tickE 1) (.emitE (.readS 1))) st).2.2

/-- C5: `batch(() => setA(v))`.  Draining re-runs effect 0, whose write to
`b` enqueues effect 1 during the drain itself. -/
def c5Batch (a0 b0 v : Int) : St :=
  (runExp 80 (.batchE (.writeS 0 (.litE (.num v)))) (c5Setup a0 b0)).2

/-- C6: `createStore(\x7b a: 1 \x7d)`; effect 0 enumerates the keys of the
root view. -/
def c6Raw : Val := .obj 0 [("a", .num 1)]

def c6Setup : St :=
  let st := createStoreF c6Raw 1 St.init
  (createEffectF 80 (.seqE (.tickE 0) (.emitE (.keysP []))) st).2.2

/-- C6: add a key through the view: `store.b = 5`. -/
def c6After : St := (runExp 80 (.writeP ["b"] (.litE (.num 5))) c6Setup).2

/-- C7: `createStore(\x7b count: 0 \x7d)` with a counter effect reading
`store.count`. -/
def c7Raw : Val := .obj 0 [("count", .num 0)]

def c7Setup : St :=
  let st := createStoreF c7Raw 1 St.init
  (createEffectF 80 (.seqE (.tickE 0) (.emitE (.readP ["count"]))) st).2.2

/-- C7: the same-value assignment `store.count = 0`. -/
def c7Res : (Except Err Val) × St :=
  runExp 80 (.writeP ["count"] (.litE (.num 0))) c7Setup

/-- C8: signal `a` (id 0); an effect whose body reads `a` and then throws
`m`.  Returns `createEffect`'s propagated result and the state. -/
def c8Setup (m : String) (a0 : Int) : (Except Err Val) × St :=
  let st := St.init
  let (_, st) := createSignalF (.num a0) st
  match createEffectF 80 (.seqE (.tickE 0) (.seqE (.readS 0) (.throwE m))) st with
  | (r, _, st1) => (r, st1)

/-- C8: re-run the throwing effect by a plain write to `a`. -/
def c8Write (m : String) (a0 v : Int) : (Except Err Val) × St :=
  runExp 80 (.writeS 0 (.litE (.num v))) (c8Setup m a0).2

/-- C8: re-run the throwing effect from a batch drain. -/
def c8BatchWrite (m : String) (a0 v : Int) : (Except Err Val) × St :=
  runExp 80 (.batchE (.writeS 0 (.litE (.num v)))) (c8Setup m a0).2

/-- C9: signals `a` (id 0) and `b` (id 1);
`createMemo(() => \x7b calls++; return a() + b() \x7d)` — the memo's signal
gets id 2, its defining effect id 0. -/
def c9St (a0 b0 : Int) : St :=
  let st := St.init
  let (_, st) := createSignalF (.num a0) st
  let (_, st) := createSignalF (.num b0) st
  (createMemoF 80 (.seqE (.tickE 0) (.addE (.readS 0) (.readS 1))) st).2.2

/-- C9: one top-level call of the memo's read function. -/
def c9Read (st : St) : St := (runExp 80 (.readS 2) st).2

/-- C9: read the memo from inside a fresh effect (id 1). -/
def c9EffRead (a0 b0 : Int) : (Except Err Val) × Nat × St :=
  createEffectF 80 (.seqE (.tickE 1) (.readS 2)) (c9St a0 b0)

/-- C9: change the dependency `a`. -/
def c9DepWrite (a0 b0 va : Int) : St :=
  (runExp 80 (.writeS 0 (.litE (.num va))) (c9St a0 b0)).2

/-- C10: `createStore(\x7b a: \x7b b: 1 \x7d \x7d)`; effect 0 reads
`store.a.b`.  The signal for path `'a'` gets id 0, for `'a.b'` id 1. -/
def c10Raw : Val := .obj 0 [("a", .obj 1 [("b", .num 1)])]

def c10Setup : St :=
  let st := createStoreF c10Raw 2 St.init
  (createEffectF 80 (.seqE (.tickE 0) (.emitE (.readP ["a", "b"]))) st).2.2

/-- C10: notify the prefix signal `'a'` directly. -/
def c10NotifyA : St := (step 80 (.sigSetT 0 (.obj 9 [])) c10Setup).2

/-- C10: notify the leaf signal `'a.b'` directly. -/
def c10NotifyAB : St := (step 80 (.sigSetT 1 (.num 7)) c10Setup).2

/-! ### General lemmas about the interpreter -/

theorem subscribeFn_context (r s : Nat) (st : St) :
    (subscribeFn r s st).context = st.context := rfl

theorem sigGetF_context (s : Nat) (st : St) :
    (sigGetF s st).2.context = st.context := by
  unfold sigGetF
  split <;> rfl

theorem getSignalForPath_context (ps : List String) (st : St) :
    (getSignalForPath ps st).2.context = st.context := by
  unfold getSignalForPath
  split <;> rfl

theorem cleanupFn_context (id : Nat) (st : St) :
    (cleanupFn id st).context = st.context := rfl

theorem shallowCopy_context (v : Val) (st : St) :
    (shallowCopy v st).2.context = st.context := by
  unfold shallowCopy
  split <;> rfl

/-- Every interpreter step leaves the execution-context stack exactly as it
found it: each `execute` pushes and then pops on every exit path (the
source's try/finally), and no other operation touches the stack. -/
theorem step_context (fuel : Nat) :
    ∀ (t : Task) (st : St), ((step fuel t st).2).context = st.context := by
  induction fuel with
  | zero => intro t st; rfl
  | succ f ih =>
    intro t st
    cases t with
    | evalT e =>
      cases e with
      | litE v => rfl
      | readS s => exact sigGetF_context s st
      | writeS s e1 =>
        simp only [step]
        have h1 := ih (.evalT e1) st
        cases hA : step f (.evalT e1) st with
        | mk r st1 =>
          rw [hA] at h1
          cases r with
          | ok v => exact (ih (.sigSetT s v) st1).trans h1
          | error err => exact h1
      | readP ps => simp only [step]; exact ih (.readAuxT [] st.raw ps) st
      | writeP ps e1 => simp only [step]; exact ih (.writeAuxT [] st.raw ps e1) st
      | keysP ps =>
        simp only [step]
        have h1 := ih (.readAuxT [] st.raw ps) st
        cases hA : step f (.readAuxT [] st.raw ps) st with
        | mk r st1 =>
          rw [hA] at h1
          cases r with
          | ok cur =>
            cases cur with
            | obj oid fs =>
              dsimp only
              cases hG : getSignalForPath (if ps.isEmpty then ["root"] else ps) st1 with
              | mk sid st2 =>
                have hg := getSignalForPath_context (if ps.isEmpty then ["root"] else ps) st1
                rw [hG] at hg
                exact (sigGetF_context sid st2).trans (hg.trans h1)
            | undef => exact h1
            | num n => exact h1
            | str s => exact h1
            | bool b => exact h1
          | error err => exact h1
      | seqE a b =>
        simp only [step]
        have h1 := ih (.evalT a) st
        cases hA : step f (.evalT a) st with
        | mk r st1 =>
          rw [hA] at h1
          cases r with
          | ok v => exact (ih (.evalT b) st1).trans h1
          | error err => exact h1
      | condE c e1 e2 =>
        simp only [step]
        have h1 := ih (.evalT c) st
        cases hA : step f (.evalT c) st with
        | mk r st1 =>
          rw [hA] at h1
          cases r with
          | ok v =>
            dsimp only
            cases hv : truthy v with
            | true => exact (ih (.evalT e1) st1).trans h1
            | false => exact (ih (.evalT e2) st1).trans h1
          | error err => exact h1
      | addE a b =>
        simp only [step]
        have h1 := ih (.evalT a) st
        cases hA : step f (.evalT a) st with
        | mk r st1 =>
          rw [hA] at h1
          cases r with
          | ok va =>
            dsimp only
            have h2 := ih (.evalT b) st1
            cases hB : step f (.evalT b) st1 with
            | mk r2 st2 =>
              rw [hB] at h2
              cases r2 with
              | ok vb => cases va <;> cases vb <;> exact h2.trans h1
              | error err => exact h2.trans h1
          | error err => exact h1
      | emitE e1 =>
        simp only [step]
        have h1 := ih (.evalT e1) st
        cases hA : step f (.evalT e1) st with
        | mk r st1 =>
          rw [hA] at h1
          cases r with
          | ok v => exact h1
          | error err => exact h1
      | tickE tag => rfl
      | throwE m => rfl
      | batchE e1 =>
        simp only [step]
        cases hb : st.isBatching with
        | true => exact ih (.evalT e1) st
        | false =>
          simp only [Bool.false_eq_true, if_false]
          have h1 := ih (.evalT e1) { st with isBatching := true }
          cases hA : step f (.evalT e1) { st with isBatching := true } with
          | mk r st1 =>
            rw [hA] at h1
            cases r with
            | ok v =>
              dsimp only
              have h2 := ih (.drainT 0) st1
              cases hB : step f (.drainT 0) st1 with
              | mk r2 st2 =>
                rw [hB] at h2
                cases r2 with
                | ok u => exact h2.trans h1
                | error err => exact h2.trans h1
            | error err => exact h1
      | setStoreE ps e1 =>
        simp only [step]
        have h1 := ih (.evalT e1) st
        cases hA : step f (.evalT e1) st with
        | mk r st1 =>
          rw [hA] at h1
          cases r with
          | ok v => exact (ih (.evalT (.batchE (.setStoreInnerE ps v))) st1).trans h1
          | error err => exact h1
      | setStoreInnerE ps v => simp only [step]; exact ih (.storeInnerT ps v) st
    | executeT id =>
      simp only [step]
      rw [ih]
      rfl
    | notifyT l =>
      cases l with
      | nil => rfl
      | cons sid rest =>
        simp only [step]
        cases hb : st.isBatching with
        | true => exact ih (.notifyT rest) _
        | false =>
          simp only [Bool.false_eq_true, if_false]
          have h1 := ih (.executeT sid) st
          cases hA : step f (.executeT sid) st with
          | mk r st1 =>
            rw [hA] at h1
            cases r with
            | ok v => exact (ih (.notifyT rest) st1).trans h1
            | error err => exact h1
    | sigSetT s v =>
      simp only [step]
      exact ih (.notifyT _) _
    | drainT i =>
      simp only [step]
      split
      · have h1 := ih (.executeT (st.batched.getD i 0)) st
        cases hA : step f (.executeT (st.batched.getD i 0)) st with
        | mk r st1 =>
          rw [hA] at h1
          cases r with
          | ok v => exact (ih (.drainT (i + 1)) st1).trans h1
          | error err => exact h1
      · rfl
    | readAuxT base cur rest =>
      cases rest with
      | nil => rfl
      | cons k ks =>
        cases cur with
        | obj oid fs =>
          simp only [step]
          cases hG : getSignalForPath (base ++ [k]) st with
          | mk sid st1 =>
            have hg := getSignalForPath_context (base ++ [k]) st
            rw [hG] at hg
            exact (ih (.readAuxT (base ++ [k]) (lookupF fs k) ks) _).trans
              ((sigGetF_context sid st1).trans hg)
        | undef => rfl
        | num n => simp only [step]; exact ih (.readAuxT (base ++ [k]) .undef ks) st
        | str s => simp only [step]; exact ih (.readAuxT (base ++ [k]) .undef ks) st
        | bool b => simp only [step]; exact ih (.readAuxT (base ++ [k]) .undef ks) st
    | writeAuxT base cur rest e1 =>
      cases rest with
      | nil => rfl
      | cons k ks =>
        cases ks with
        | nil =>
          simp only [step]
          have h1 := ih (.evalT e1) st
          cases hA : step f (.evalT e1) st with
          | mk r st1 =>
            rw [hA] at h1
            cases r with
            | ok v =>
              cases cur with
              | obj oid fs => exact (ih (.setTrapT (.obj oid fs) base k v) st1).trans h1
              | undef => exact h1
              | num n => exact h1
              | str s => exact h1
              | bool b => exact h1
            | error err => exact h1
        | cons k2 ks2 =>
          cases cur with
          | obj oid fs =>
            simp only [step]
            cases hG : getSignalForPath (base ++ [k]) st with
            | mk sid st1 =>
              have hg := getSignalForPath_context (base ++ [k]) st
              rw [hG] at hg
              exact (ih (.writeAuxT (base ++ [k]) (lookupF fs k) (k2 :: ks2) e1) _).trans
                ((sigGetF_context sid st1).trans hg)
          | undef => rfl
          | num n => rfl
          | str s => rfl
          | bool b => rfl
    | setTrapT obj base k v =>
      simp only [step]
      cases he : jsEq (getField obj k) v with
      | true => rfl
      | false =>
        simp only [Bool.false_eq_true, if_false]
        cases hG : getSignalForPath (base ++ [k]) { st with raw := rawSetIn st.raw base k v } with
        | mk sid st2 =>
          have hg := getSignalForPath_context (base ++ [k]) { st with raw := rawSetIn st.raw base k v }
          rw [hG] at hg
          dsimp only
          have h1 := ih (.sigSetT sid v) st2
          cases hA : step f (.sigSetT sid v) st2 with
          | mk r st3 =>
            rw [hA] at h1
            cases r with
            | ok u =>
              dsimp only
              have h2 := ih (.ancT (base ++ [k]) ((base ++ [k]).length - 1)) st3
              cases hB : step f (.ancT (base ++ [k]) ((base ++ [k]).length - 1)) st3 with
              | mk r2 st4 =>
                rw [hB] at h2
                cases r2 with
                | ok u2 => exact h2.trans (h1.trans hg)
                | error err => exact h2.trans (h1.trans hg)
            | error err => exact h1.trans hg
    | ancT path i =>
      simp only [step]
      split
      · rfl
      · cases hL : alLookup st.pathSigs (path.take i) with
        | some sid =>
          dsimp only
          cases ht : truthy (getNestedValue st.raw (path.take i)) with
          | true =>
            cases hS : shallowCopy (getNestedValue st.raw (path.take i)) st with
            | mk nv st1 =>
              have hs := shallowCopy_context (getNestedValue st.raw (path.take i)) st
              rw [hS] at hs
              have h1 := ih (.sigSetT sid nv) st1
              cases hA : step f (.sigSetT sid nv) st1 with
              | mk r st2 =>
                rw [hA] at h1
                cases r with
                | ok u => exact (ih (.ancT path (i - 1)) st2).trans (h1.trans hs)
                | error err => exact h1.trans hs
          | false => exact ih (.ancT path (i - 1)) st
        | none => exact ih (.ancT path (i - 1)) st
    | storeLoopT ps i =>
      simp only [step]
      split
      · rfl
      · cases hL : alLookup st.pathSigs (ps.take i) with
        | some sid =>
          dsimp only
          have h1 := ih (.sigSetT sid (getNestedValue st.raw (ps.take i))) st
          cases hA : step f (.sigSetT sid (getNestedValue st.raw (ps.take i))) st with
          | mk r st1 =>
            rw [hA] at h1
            cases r with
            | ok u => exact (ih (.storeLoopT ps (i + 1)) st1).trans h1
            | error err => exact h1
        | none => exact ih (.storeLoopT ps (i + 1)) st
    | storeInnerT ps v =>
      simp only [step]
      cases hN : setNestedValue st.raw ps v st.nextObj with
      | mk raw2 ctr =>
        dsimp only
        cases hG : getSignalForPath ps { st with raw := raw2, nextObj := ctr } with
        | mk sid st2 =>
          have hg := getSignalForPath_context ps { st with raw := raw2, nextObj := ctr }
          rw [hG] at hg
          dsimp only
          have h1 := ih (.sigSetT sid v) st2
          cases hA : step f (.sigSetT sid v) st2 with
          | mk r st3 =>
            rw [hA] at h1
            cases r with
            | ok u => exact (ih (.storeLoopT ps 1) st3).trans (h1.trans hg)
            | error err => exact h1.trans hg

theorem alLookup_mem {β : Type} (l : List (Nat × β)) (k : Nat) (v : β)
    (h : alLookup l k = some v) : (k, v) ∈ l := by
  induction l with
  | nil => simp [alLookup] at h
  | cons hd tl ih =>
    obtain ⟨k0, v0⟩ := hd
    by_cases h0 : k0 = k
    · subst h0
      simp [alLookup] at h
      subst h
      exact List.mem_cons_self _ _
    · simp only [alLookup, if_neg h0] at h
      exact List.mem_cons_of_mem _ (ih h)

theorem alLookup_alUpdate {β : Type} (l : List (Nat × β)) (k k' : Nat) (g : β → β) :
    alLookup (alUpdate l k g) k' =
      if k' = k then (alLookup l k).map g else alLookup l k' := by
  induction l with
  | nil => simp [alUpdate, alLookup]
  | cons hd tl ih =>
    obtain ⟨k0, v0⟩ := hd
    by_cases h0 : k0 = k
    · subst h0
      by_cases h1 : k' = k0
      · subst h1
        simp [alUpdate, alLookup]
      · have h1' : ¬ k0 = k' := fun hh => h1 hh.symm
        simp [alUpdate, alLookup, h1, h1']
    · by_cases h1 : k' = k0
      · subst h1
        have h0' : ¬ k' = k := h0
        simp [alUpdate, alLookup, h0, h0']
      · have h1' : ¬ k0 = k' := fun hh => h1 hh.symm
        simp [alUpdate, alLookup, h0, h1, h1', ih]

theorem dropSub_idem (id : Nat) (g : SigSt) :
    dropSub id (dropSub id g) = dropSub id g := by
  simp [dropSub, List.filter_filter]

theorem alLookup_foldl_dropSub (deps : List Nat) (id s : Nat) :
    ∀ sigs : List (Nat × SigSt),
    alLookup (deps.foldl (fun acc d => alUpdate acc d (dropSub id)) sigs) s =
      if s ∈ deps then (alLookup sigs s).map (dropSub id) else alLookup sigs s := by
  induction deps with
  | nil => intro sigs; simp
  | cons d ds ih =>
    intro sigs
    simp only [List.foldl_cons]
    rw [ih]
    by_cases hsd : s = d
    · subst hsd
      simp only [List.mem_cons, true_or, if_pos, alLookup_alUpdate, if_pos rfl]
      by_cases hs : s ∈ ds
      · rw [if_pos hs]
        cases alLookup sigs s with
        | none => rfl
        | some g => simp [dropSub_idem]
      · rw [if_neg hs]
    · by_cases hs : s ∈ ds
      · have : s ∈ d :: ds := List.mem_cons_of_mem _ hs
        rw [if_pos hs, if_pos this, alLookup_alUpdate, if_neg hsd]
      · have : s ∉ d :: ds := by
          intro hmem
          rcases List.mem_cons.mp hmem with h | h
          · exact hsd h
          · exact hs h
        rw [if_neg hs, if_neg this, alLookup_alUpdate, if_neg hsd]

theorem filter_ne_contains (l : List Nat) (id : Nat) :
    ((l.filter (fun x => !(x == id))).contains id) = false := by
  induction l with
  | nil => rfl
  | cons x xs ih =>
    by_cases hx : x = id
    · subst hx
      simp [ih]
    · have h1 : (!(x == id)) = true := by simp [hx]
      have h2 : ¬ id = x := fun hh => hx hh.symm
      simp [List.filter_cons, h1, List.contains_cons, ih, h2]

/-- `cleanup` really unregisters: given the bidirectional bookkeeping
invariant, running `cleanup` for a subscriber removes it from the
subscriber set of every signal whatsoever — the dependency list it sweeps
covers every set it was registered in. -/
theorem cleanupFn_unregisters (id : Nat) (st : St) (hInv : invB st = true) (s : Nat) :
    ((getSig (cleanupFn id st) s).subs).contains id = false := by
  unfold cleanupFn getSig
  dsimp only
  rw [alLookup_foldl_dropSub]
  by_cases hs : s ∈ (getSub st id).deps
  · rw [if_pos hs]
    cases h : alLookup st.sigs s with
    | none => rfl
    | some g =>
      show ((dropSub id g).subs).contains id = false
      unfold dropSub
      exact filter_ne_contains g.subs id
  · rw [if_neg hs]
    cases h : alLookup st.sigs s with
    | none => rfl
    | some g =>
      show ((g.subs).contains id) = false
      cases hc : (g.subs).contains id with
      | false => rfl
      | true =>
        exfalso
        have hmem := alLookup_mem st.sigs s g h
        unfold invB at hInv
        have hall := (List.all_eq_true.mp hInv) (s, g) hmem
        have hid : id ∈ g.subs := by
          rcases List.contains_iff_exists_mem_beq.mp hc with ⟨a, ha, hb⟩
          obtain rfl := eq_of_beq hb
          exact ha
        have hdep := (List.all_eq_true.mp hall) id hid
        apply hs
        rcases List.contains_iff_exists_mem_beq.mp hdep with ⟨a, ha, hb⟩
        obtain rfl := eq_of_beq hb
        exact ha

/-! ### Soundness of the executable comparators -/

theorem veqAux_sound (f : Nat) :
    (∀ a b : Val, veqAux f (.inl (a, b)) = true → a = b) ∧
    (∀ l l' : List (String × Val), veqAux f (.inr (l, l')) = true → l = l') := by
  induction f with
  | zero =>
    constructor
    · intro a b h; simp [veqAux] at h
    · intro l l' h; simp [veqAux] at h
  | succ n ih =>
    obtain ⟨ihv, ihl⟩ := ih
    constructor
    · intro a b h
      cases a <;> cases b <;>
        first
          | rfl
          | (simp [veqAux] at h; done)
          | (simp [veqAux] at h; rw [h])
          | (simp [veqAux] at h; rw [h.1, ihl _ _ h.2])
    · intro l l' h
      cases l with
      | nil =>
        cases l' with
        | nil => rfl
        | cons b r => simp [veqAux] at h
      | cons a r =>
        cases l' with
        | nil => simp [veqAux] at h
        | cons b r' =>
          obtain ⟨k, v⟩ := a
          obtain ⟨k', v'⟩ := b
          simp only [veqAux, Bool.and_eq_true, beq_iff_eq] at h
          obtain ⟨⟨hk, hv⟩, hr⟩ := h
          rw [hk, ihv _ _ hv, ihl _ _ hr]

theorem valEqB_sound (f : Nat) (a b : Val) (h : valEqB f a b = true) : a = b :=
  (veqAux_sound f).1 a b h

theorem listEqB_sound {α : Type} (eqb : α → α → Bool)
    (hs : ∀ a b, eqb a b = true → a = b) :
    ∀ l l' : List α, listEqB eqb l l' = true → l = l' := by
  intro l
  induction l with
  | nil =>
    intro l' h
    cases l' with
    | nil => rfl
    | cons b r => simp [listEqB] at h
  | cons a r ih =>
    intro l' h
    cases l' with
    | nil => simp [listEqB] at h
    | cons b r' =>
      simp only [listEqB, Bool.and_eq_true] at h
      rw [hs a b h.1, ih r' h.2]

theorem entryEqB_sound (f : Nat) (a b : Entry) (h : entryEqB f a b = true) : a = b := by
  cases a with
  | tk x =>
    cases b with
    | tk y => simp only [entryEqB, beq_iff_eq] at h; rw [h]
    | obs w => simp [entryEqB] at h
  | obs v =>
    cases b with
    | tk y => simp [entryEqB] at h
    | obs w => exact congrArg Entry.obs (valEqB_sound f v w h)

theorem entriesEqB_sound (f : Nat) (l l' : List Entry)
    (h : entriesEqB f l l' = true) : l = l' :=
  listEqB_sound (entryEqB f) (entryEqB_sound f) l l' h

theorem expEqB_sound (f : Nat) : ∀ a b : Exp, expEqB f a b = true → a = b := by
  intro a
  induction a with
  | litE v =>
    intro b h
    cases b <;> first
      | (simp [expEqB] at h; done)
      | exact congrArg Exp.litE (valEqB_sound f _ _ h)
  | readS s =>
    intro b h
    cases b <;> first
      | (simp [expEqB] at h; done)
      | (simp only [expEqB, beq_iff_eq] at h; rw [h])
  | writeS s e ihe =>
    intro b h
    cases b <;> first
      | (simp [expEqB] at h; done)
      | (simp only [expEqB, Bool.and_eq_true, beq_iff_eq] at h; rw [h.1, ihe _ h.2])
  | readP p =>
    intro b h
    cases b <;> first
      | (simp [expEqB] at h; done)
      | (simp only [expEqB, beq_iff_eq] at h; rw [h])
  | writeP p e ihe =>
    intro b h
    cases b <;> first
      | (simp [expEqB] at h; done)
      | (simp only [expEqB, Bool.and_eq_true, beq_iff_eq] at h; rw [h.1, ihe _ h.2])
  | keysP p =>
    intro b h
    cases b <;> first
      | (simp [expEqB] at h; done)
      | (simp only [expEqB, beq_iff_eq] at h; rw [h])
  | seqE x y ihx ihy =>
    intro b h
    cases b <;> first
      | (simp [expEqB] at h; done)
      | (simp only [expEqB, Bool.and_eq_true] at h; rw [ihx _ h.1, ihy _ h.2])
  | condE c t e ihc iht ihe =>
    intro b h
    cases b <;> first
      | (simp [expEqB] at h; done)
      | (simp only [expEqB, Bool.and_eq_true] at h; rw [ihc _ h.1.1, iht _ h.1.2, ihe _ h.2])
  | addE x y ihx ihy =>
    intro b h
    cases b <;> first
      | (simp [expEqB] at h; done)
      | (simp only [expEqB, Bool.and_eq_true] at h; rw [ihx _ h.1, ihy _ h.2])
  | emitE e ihe =>
    intro b h
    cases b <;> first
      | (simp [expEqB] at h; done)
      | exact congrArg Exp.emitE (ihe _ h)
  | tickE t =>
    intro b h
    cases b <;> first
      | (simp [expEqB] at h; done)
      | (simp only [expEqB, beq_iff_eq] at h; rw [h])
  | throwE m =>
    intro b h
    cases b <;> first
      | (simp [expEqB] at h; done)
      | (simp only [expEqB, beq_iff_eq] at h; rw [h])
  | batchE e ihe =>
    intro b h
    cases b <;> first
      | (simp [expEqB] at h; done)
      | exact congrArg Exp.batchE (ihe _ h)
  | setStoreE p e ihe =>
    intro b h
    cases b <;> first
      | (simp [expEqB] at h; done)
      | (simp only [expEqB, Bool.and_eq_true, beq_iff_eq] at h; rw [h.1, ihe _ h.2])
  | setStoreInnerE p v =>
    intro b h
    cases b <;> first
      | (simp [expEqB] at h; done)
      | (simp only [expEqB, Bool.and_eq_true, beq_iff_eq] at h;
         rw [h.1, valEqB_sound f _ _ h.2])

theorem resEqB_sound (f : Nat) (r r' : Except Err Val)
    (h : resEqB f r r' = true) : r = r' := by
  cases r with
  | ok v =>
    cases r' with
    | ok w => exact congrArg Except.ok (valEqB_sound f v w h)
    | error e => simp [resEqB] at h
  | error e =>
    cases r' with
    | ok w => simp [resEqB] at h
    | error e' => simp only [resEqB, decide_eq_true_eq] at h; rw [h]

theorem sigStEqB_sound (f : Nat) (g g' : SigSt) (h : sigStEqB f g g' = true) : g = g' := by
  obtain ⟨d, s⟩ := g
  obtain ⟨d', s'⟩ := g'
  simp only [sigStEqB, Bool.and_eq_true, decide_eq_true_eq] at h
  rw [show d = d' from valEqB_sound f _ _ h.1, h.2]

theorem subStEqB_sound (f : Nat) (b b' : SubSt) (h : subStEqB f b b' = true) : b = b' := by
  obtain ⟨d, e⟩ := b
  obtain ⟨d', e'⟩ := b'
  simp only [subStEqB, Bool.and_eq_true, decide_eq_true_eq] at h
  rw [h.1, expEqB_sound f _ _ h.2]

theorem pairSigEqB_sound (f : Nat) (p q : Nat × SigSt)
    (h : (p.1 == q.1 && sigStEqB f p.2 q.2) = true) : p = q := by
  obtain ⟨a, g⟩ := p
  obtain ⟨b, g'⟩ := q
  simp only [Bool.and_eq_true, beq_iff_eq] at h
  rw [h.1, sigStEqB_sound f _ _ h.2]

theorem pairSubEqB_sound (f : Nat) (p q : Nat × SubSt)
    (h : (p.1 == q.1 && subStEqB f p.2 q.2) = true) : p = q := by
  obtain ⟨a, g⟩ := p
  obtain ⟨b, g'⟩ := q
  simp only [Bool.and_eq_true, beq_iff_eq] at h
  rw [h.1, subStEqB_sound f _ _ h.2]

theorem stEqB_sound (f : Nat) (s s' : St) (h : stEqB f s s' = true) : s = s' := by
  obtain ⟨g1, n1, m1, u1, c1, b1, q1, r1, p1, o1, l1⟩ := s
  obtain ⟨g2, n2, m2, u2, c2, b2, q2, r2, p2, o2, l2⟩ := s'
  simp only [stEqB, Bool.and_eq_true, beq_iff_eq, decide_eq_true_eq] at h
  obtain ⟨⟨⟨⟨⟨⟨⟨⟨⟨⟨h1, h2⟩, h3⟩, h4⟩, h5⟩, h6⟩, h7⟩, h8⟩, h9⟩, h10⟩, h11⟩ := h
  rw [listEqB_sound _ (pairSigEqB_sound f) _ _ h1, h2,
      listEqB_sound _ (pairSubEqB_sound f) _ _ h3, h4, h5, h6, h7,
      valEqB_sound f _ _ h8, h9, h10, entriesEqB_sound f _ _ h11]

/-! ### Lemmas for the memo claim -/

theorem createEffectF_context (f : Nat) (body : Exp) (st : St) :
    ((createEffectF f body st).2.2).context = st.context :=
  step_context f (.executeT st.nextSub) _

theorem createMemoF_context (f : Nat) (fn : Exp) (st : St) :
    ((createMemoF f fn st).2.2).context = st.context := by
  unfold createMemoF
  have h1 := step_context f (.evalT fn) st
  cases hA : step f (.evalT fn) st with
  | mk r st1 =>
    rw [hA] at h1
    cases r with
    | ok v => exact (createEffectF_context f _ _).trans h1
    | error e => exact h1

/-- A top-level signal read (empty execution context) returns the stored
value and leaves the state untouched. -/
theorem runExp_readS (f s : Nat) (st : St) (h : st.context = []) :
    runExp (f + 1) (.readS s) st = (.ok ((getSig st s).data), st) := by
  simp [runExp, step, sigGetF, h]

theorem c9Read_id (st : St) (h : st.context = []) : c9Read st = st := by
  unfold c9Read
  rw [show (80 : Nat) = 79 + 1 from rfl, runExp_readS 79 2 st h]

theorem c9St_context (a0 b0 : Int) : (c9St a0 b0).context = [] := by
  unfold c9St
  rw [createMemoF_context]
  rfl

/-- Reading the memo's getter any number of times at top level leaves the
state literally unchanged (so the memo's computation is never re-invoked
by reads). -/
theorem c9_iterate (a0 b0 : Int) (k : Nat) :
    c9Read^[k] (c9St a0 b0) = c9St a0 b0 := by
  induction k with
  | zero => rfl
  | succ n ihk =>
    rw [Function.iterate_succ_apply, c9Read_id _ (c9St_context a0 b0)]
    exact ihk

/-! ### The claims -/

/-- Claim C1: for an effect depending on exactly the two signals `a` and
`b` (initially 1 and 2), writing `a := 10` then `b := 20` inside one
`batch(fn)` call makes the effect execute exactly once after `fn` returns,
and that single execution observes the final values of both signals — the
log shows one additional run observing `(10, 20)` and never the
intermediate pair `(10, 2)`; the same two writes outside any batch make it
execute exactly twice, the first run observing the intermediate pair. -/
theorem C1_batch_coalesces_two_writes :
    (c1BatchSt 1 2 10 20).log =
      [.tk 0, .obs (.num 1), .obs (.num 2), .tk 0, .obs (.num 10), .obs (.num 20)]
    ∧ countTk 0 (c1BatchSt 1 2 10 20).log = 2
    ∧ (c1PlainSt 1 2 10 20).log =
      [.tk 0, .obs (.num 1), .obs (.num 2),
       .tk 0, .obs (.num 10), .obs (.num 2),
       .tk 0, .obs (.num 10), .obs (.num 20)]
    ∧ countTk 0 (c1PlainSt 1 2 10 20).log = 3 :=
  ⟨entriesEqB_sound 64 _ _ (by decide), by decide,
   entriesEqB_sound 64 _ _ (by decide), by decide⟩

/-- Claim C2: a computation re-discovers its dependency set on each run.
First conjunct (general): under the bidirectional bookkeeping invariant,
`cleanup` — which `execute` runs before every body evaluation — removes the
subscriber from every signal subscriber set.  Remaining conjuncts (the
spec's concrete scenario, cond=true, a=1, b=2): after `cond` flips to
false the effect has re-run reading `b`, `a`'s subscriber set is empty and
`b`'s holds the effect; the subsequent write `a := 99` does not re-run it
(log unchanged), while `b := 50` re-runs it observing 50. -/
theorem C2_dependency_rediscovery :
    (∀ (id : Nat) (st : St), invB st = true →
        ∀ s : Nat, ((getSig (cleanupFn id st) s).subs).contains id = false)
    ∧ invB (c2Switch 1 2) = true
    ∧ (getSig (c2Switch 1 2) 1).subs = []
    ∧ (getSig (c2Switch 1 2) 2).subs = [0]
    ∧ (getSig (c2Switch 1 2) 0).subs = [0]
    ∧ (c2Switch 1 2).log = [.tk 0, .obs (.num 1), .tk 0, .obs (.num 2)]
    ∧ (c2WriteA 1 2 99).log = (c2Switch 1 2).log
    ∧ (c2WriteB 1 2 50).log = (c2Switch 1 2).log ++ [.tk 0, .obs (.num 50)] :=
  ⟨fun id st h s => cleanupFn_unregisters id st h s,
   by decide, by decide, by decide, by decide,
   entriesEqB_sound 64 _ _ (by decide),
   entriesEqB_sound 64 _ _ (by decide),
   entriesEqB_sound 64 _ _ (by decide)⟩

/-- Claim C2 witness: the general conjunct applied at the concrete
branch-switch state. -/
theorem C2_witness :
    invB (c2Switch 1 2) = true
    ∧ ((getSig (cleanupFn 0 (c2Switch 1 2)) 2).subs).contains 0 = false :=
  ⟨by decide, C2_dependency_rediscovery.1 0 (c2Switch 1 2) (by decide) 2⟩

/-- Claim C3: writing a different value at `store.user.name` through the
view updates the raw backing object in place (object identities 0,1,2 are
preserved), notifies the `'user.name'` signal with the new value, re-runs
its subscriber, and then re-notifies the already-materialized ancestor
`'user'` signal with a freshly shallow-copied container: a new object
reference (fresh identity 3, distinct from every pre-existing identity)
holding the post-write fields — so the effect depending on `store.user`
re-runs.  The never-read `meta` branch gets no signal: the path-signal map
is unchanged by the write, so unmaterialized ancestors are neither created
nor notified. -/
theorem C3_deep_write_ancestor_propagation :
    c3After.raw =
      .obj 0 [("user", .obj 1 [("name", .str "Jane")]), ("meta", .obj 2 [("k", .num 5)])]
    ∧ (getSig c3After 1).data = .str "Jane"
    ∧ c3After.log = c3Setup.log ++
        [.tk 1, .obs (.str "Jane"),
         .tk 2, .obs (.obj 1 [("name", .str "Jane")]),
         .tk 1, .obs (.str "Jane")]
    ∧ (getSig c3Setup 0).data = .obj 1 [("name", .str "John")]
    ∧ (getSig c3After 0).data = .obj 3 [("name", .str "Jane")]
    ∧ c3Setup.nextObj = 3
    ∧ c3After.pathSigs = [(["user"], 0), (["user", "name"], 1)]
    ∧ c3Setup.pathSigs = [(["user"], 0), (["user", "name"], 1)] :=
  ⟨valEqB_sound 64 _ _ (by decide), valEqB_sound 64 _ _ (by decide),
   entriesEqB_sound 64 _ _ (by decide), valEqB_sound 64 _ _ (by decide),
   valEqB_sound 64 _ _ (by decide), by decide, by decide, by decide⟩

/-- Claim C4: `setStore('a.b', 2)` notifies both the `'a.b'` signal (its
subscriber effect 1 re-runs with 2) and the materialized `'a'` signal (its
subscriber effect 2 re-runs); the refresh pass performs no equality check —
`setStore('a.b', 1)` with `a.b` already 1 still re-runs both subscribers —
whereas per-property assignment `store.a.b = 1` with `a.b` already 1
early-returns leaving the state exactly unchanged. -/
theorem C4_setStore_refresh_asymmetry :
    c4SetStore.log =
      c4Setup.log ++ [.tk 1, .obs (.num 2), .tk 2, .obs (.obj 1 [("b", .num 2)])]
    ∧ (getSig c4SetStore 1).data = .num 2
    ∧ (getSig c4SetStore 0).data = .obj 1 [("b", .num 2)]
    ∧ c4SetStoreSame.log =
      c4Setup.log ++ [.tk 1, .obs (.num 1), .tk 2, .obs (.obj 1 [("b", .num 1)])]
    ∧ c4ViewSame.1 = .ok (.bool true)
    ∧ c4ViewSame.2 = c4Setup :=
  ⟨entriesEqB_sound 64 _ _ (by decide), valEqB_sound 64 _ _ (by decide),
   valEqB_sound 64 _ _ (by decide), entriesEqB_sound 64 _ _ (by decide),
   resEqB_sound 64 _ _ (by decide), stEqB_sound 64 _ _ (by decide)⟩

/-- Claim C5 counterexample: effect 1 is first enqueued during the drain
itself (by effect 0's write to `b` while draining), yet it executes within
that same `batch()` call: its run count goes from 1 before the batch to 2
after it.  The JS `for...of` over the live `batchedEffects` Set visits
entries appended during the iteration, so the drain is not single-pass. -/
theorem C5_counterexample :
    countTk 1 (c5Setup 1 2).log = 1
    ∧ countTk 1 (c5Batch 1 2 42).log = 2
    ∧ ¬ countTk 1 (c5Batch 1 2 42).log = countTk 1 (c5Setup 1 2).log :=
  ⟨by decide, by decide, by decide⟩

/-- Claim C5 (amended): a subscriber callback first enqueued during the
drain is executed exactly once within the same outermost `batch()` call —
the drain iterates the live pending set, visiting entries appended during
the iteration — and the batch ends with the pending set cleared and the
flag reset; the newly-run callback observes the final written value. -/
theorem C5_drain_visits_newly_enqueued :
    (c5Batch 1 2 42).log =
      [.tk 0, .tk 1, .obs (.num 1), .tk 0, .tk 1, .obs (.num 42)]
    ∧ countTk 1 (c5Batch 1 2 42).log = 2
    ∧ (c5Batch 1 2 42).batched = []
    ∧ (c5Batch 1 2 42).isBatching = false :=
  ⟨entriesEqB_sound 64 _ _ (by decide), by decide, by decide, by decide⟩

/-- Claim C6 counterexample: with an effect enumerating the keys of the
root view, adding the key `b` through the view (`store.b = 5`) updates the
raw object but the effect does not re-run — its run count stays 1 and the
log is unchanged — contradicting the claim that key addition is observable
to that effect. -/
theorem C6_counterexample :
    getField c6After.raw "b" = .num 5
    ∧ countTk 0 c6Setup.log = 1
    ∧ countTk 0 c6After.log = 1
    ∧ c6After.log = c6Setup.log :=
  ⟨valEqB_sound 64 _ _ (by decide), by decide, by decide,
   entriesEqB_sound 64 _ _ (by decide)⟩

/-- Claim C6 (amended): key enumeration on the base view is indeed tracked
against the synthetic `'root'` path signal — the enumerating effect is
registered as its subscriber — but no write through the view ever notifies
that signal (the set trap's ancestor walk stops above length-1 paths and
there is no delete trap at all), so adding a key to the root object does
not re-run the effect; the `'root'` signal keeps its initial (undefined)
value and its subscriber list unchanged. -/
theorem C6_root_keys_tracked_never_notified :
    c6Setup.pathSigs = [(["root"], 0)]
    ∧ (getSig c6Setup 0).subs = [0]
    ∧ getField c6After.raw "b" = .num 5
    ∧ c6After.log = c6Setup.log
    ∧ (getSig c6After 0).subs = [0]
    ∧ (getSig c6After 0).data = .undef :=
  ⟨by decide, by decide, valEqB_sound 64 _ _ (by decide),
   entriesEqB_sound 64 _ _ (by decide), by decide,
   valEqB_sound 64 _ _ (by decide)⟩

/-- Claim C7: assigning a value strictly equal (`===`) to the current one
through the view's set trap is a silent no-op: for every store state the
trap returns true and the entire state is unchanged — backing object
untouched, no signal notified, no effect re-run.  In the spec's scenario,
`store.count = store.count` returns the trap's true with the state exactly
as before, the counter effect's run count staying 1. -/
theorem C7_same_value_assignment_noop :
    (∀ (f : Nat) (obj : Val) (base : List String) (k : String) (v : Val) (st : St),
        jsEq (getField obj k) v = true →
        step (f + 1) (.setTrapT obj base k v) st = (.ok (.bool true), st))
    ∧ c7Res.1 = .ok (.bool true)
    ∧ c7Res.2 = c7Setup
    ∧ countTk 0 c7Res.2.log = 1 := by
  refine ⟨?_, resEqB_sound 64 _ _ (by decide), stEqB_sound 64 _ _ (by decide), by decide⟩
  intro f obj base k v st h
  simp [step, h]

/-- Claim C7 witness: the no-op trap lemma applied at the concrete store. -/
theorem C7_witness :
    jsEq (getField c7Raw "count") (.num 0) = true
    ∧ step 10 (.setTrapT c7Raw [] "count" (.num 0)) St.init = (.ok (.bool true), St.init) :=
  ⟨by decide, C7_same_value_assignment_noop.1 9 c7Raw [] "count" (.num 0) St.init (by decide)⟩

/-- Claim C8: a thrown body error propagates synchronously to the caller of
`execute` — the `createEffect` caller on the first run, the notifying write
or the batch drain on re-runs — and the context-stack pop still happens on
the throwing path: for every fuel, subscriber and state, `execute` returns
with the stack exactly as it was (first conjunct, fully general), and in
the throwing-effect scenario the creation call, a plain re-running write
and a batched re-running write all return the thrown error with an intact
(empty) stack and the batching flag reset. -/
theorem C8_throw_propagates_stack_intact :
    (∀ (fuel id : Nat) (st : St), ((step fuel (.executeT id) st).2).context = st.context)
    ∧ (c8Setup "boom" 1).1 = .error (.thrown "boom")
    ∧ (c8Setup "boom" 1).2.context = []
    ∧ (c8Write "boom" 1 5).1 = .error (.thrown "boom")
    ∧ (c8Write "boom" 1 5).2.context = []
    ∧ (c8BatchWrite "boom" 1 5).1 = .error (.thrown "boom")
    ∧ (c8BatchWrite "boom" 1 5).2.context = []
    ∧ (c8BatchWrite "boom" 1 5).2.isBatching = false :=
  ⟨fun fuel id st => step_context fuel (.executeT id) st,
   resEqB_sound 64 _ _ (by decide), by decide,
   resEqB_sound 64 _ _ (by decide), by decide,
   resEqB_sound 64 _ _ (by decide), by decide, by decide⟩

/-- Claim C9: the memo's defining computation runs twice at creation (the
seeding call plus the defining effect's first run) and reading the memo's
getter never re-invokes it: any number of top-level reads leaves the state
literally unchanged (first conjunct, for all initial values); reading it
inside an effect returns the cached sum and only registers the standard
signal subscription — the run counter stays at 2 — and the computation
re-runs exactly in response to a dependency write, updating the cached
value. -/
theorem C9_memo_cached_reads :
    (∀ (a0 b0 : Int) (k : Nat), c9Read^[k] (c9St a0 b0) = c9St a0 b0)
    ∧ countTk 0 (c9St 2 3).log = 2
    ∧ (getSig (c9St 2 3) 2).data = .num 5
    ∧ (c9EffRead 2 3).1 = .ok (.num 5)
    ∧ (getSig (c9EffRead 2 3).2.2 2).subs = [1]
    ∧ countTk 0 ((c9EffRead 2 3).2.2).log = 2
    ∧ countTk 0 (c9DepWrite 2 3 10).log = 3
    ∧ (getSig (c9DepWrite 2 3 10) 2).data = .num 13 :=
  ⟨c9_iterate, by decide, valEqB_sound 64 _ _ (by decide),
   resEqB_sound 64 _ _ (by decide), by decide, by decide, by decide,
   valEqB_sound 64 _ _ (by decide)⟩

/-- Claim C10: an effect reading `view.a.b` fires the get trap at every
prefix: both the `'a'` and the `'a.b'` signals are lazily materialized, the
effect is registered in both subscriber sets (and both signal ids are in
its dependency list), and notifying either one re-runs the effect. -/
theorem C10_prefix_subscriptions :
    c10Setup.pathSigs = [(["a"], 0), (["a", "b"], 1)]
    ∧ (getSig c10Setup 0).subs = [0]
    ∧ (getSig c10Setup 1).subs = [0]
    ∧ (getSub c10Setup 0).deps = [0, 1]
    ∧ countTk 0 c10Setup.log = 1
    ∧ countTk 0 c10NotifyA.log = 2
    ∧ countTk 0 c10NotifyAB.log = 2 :=
  ⟨by decide, by decide, by decide, by decide, by decide, by decide, by decide⟩

end Zust
